import Mathlib

/-!
Verification of the Model Scoring & Attribution Engine of the
energyagentai repository (file src/shared_tools/mlagent.py) against its
natural-language specification.

The Python code is shallowly embedded: pandas dataframes become lists of
rows, machine floats become exact rationals (and reals where the sigmoid
is involved), and the column-wise normalization of prepare_features
becomes a per-cell function.  Each claim of the specification is stated
and settled as a theorem about these definitions.
-/

namespace EnergyAgent

/-! ## Python string primitives

Models of the string operations used by prepare_features:
str.lower (ASCII case folding), str.strip (whitespace trimming) and the
column-name cleaning .str.replace(' ', '').str.lower(). -/

/-- Whitespace characters removed by Python str.strip, identified by code point. -/
def isPySpace (c : Char) : Bool :=
  c.toNat = 32 || c.toNat = 9 || c.toNat = 10 || c.toNat = 13 || c.toNat = 11 || c.toNat = 12

/-- ASCII lower-casing of one character, as Python str.lower acts on ASCII. -/
def pyLowerChar (c : Char) : Char :=
  if 65 ≤ c.toNat ∧ c.toNat ≤ 90 then Char.ofNat (c.toNat + 32) else c

/-- Python str.lower on a whole string. -/
def pyLower (s : String) : String := ⟨s.data.map pyLowerChar⟩

/-- Drop leading and trailing whitespace from a character list (str.strip). -/
def stripList (l : List Char) : List Char :=
  ((l.dropWhile isPySpace).reverse.dropWhile isPySpace).reverse

/-- Python str.strip on a string. -/
def pyStrip (s : String) : String := ⟨stripList s.data⟩

/-- Column-name cleaning of prepare_features, line 122:
df.columns.str.replace(' ', '').str.lower(). -/
def cleanCol (s : String) : String := pyLower ⟨s.data.filter (fun c => !(c == ' '))⟩

/-! ## Cell values of the raw input

A raw dataframe cell is a string, a number, or missing (NaN). -/

/-- Raw value of one input cell before normalization. -/
inductive CellValue where
  | str (s : String)
  | num (q : ℚ)
  | missing
deriving DecidableEq

/-- Python str() of a cell, as .astype(str) applies it; NaN prints as "nan". -/
def pyStr : CellValue → String
  | .str s => s
  | .num q => toString q
  | .missing => "nan"

/-- Step .astype(str).replace('nan', 'unknown'): stringify, then fold the
stringified missing marker into "unknown". -/
def preClean (v : CellValue) : String :=
  if pyStr v = "nan" then "unknown" else pyStr v

/-- Steps .str.lower().str.strip(). -/
def canonStr (s : String) : String := pyStrip (pyLower s)

/-- Normalization chain of one categorical cell, mlagent.py lines 132-138:
astype(str).replace('nan','unknown').str.lower().str.strip().replace('','unknown'). -/
def normCatStr (v : CellValue) : String :=
  if canonStr (preClean v) = "" then "unknown" else canonStr (preClean v)

/-! ## Numeric coercion (pd.to_numeric with errors='coerce') -/

/-- Numeric value of a digit list read in base ten. -/
def natOfDigits (l : List Char) : ℕ := l.foldl (fun a c => 10 * a + (c.toNat - 48)) 0

/-- Parse an unsigned decimal literal: digits with an optional fractional part. -/
def parseUnsignedQ (l : List Char) : Option ℚ :=
  let ip := l.takeWhile Char.isDigit
  match l.drop ip.length with
  | [] => if ip.isEmpty then none else some (natOfDigits ip)
  | c :: fp =>
      if c == '.' && fp.all Char.isDigit && (!ip.isEmpty || !fp.isEmpty) then
        some ((natOfDigits ip : ℚ) + (natOfDigits fp : ℚ) / (10 : ℚ) ^ fp.length)
      else none

/-- Parse a signed decimal literal after stripping surrounding whitespace. -/
def parseNumQ (s : String) : Option ℚ :=
  match stripList s.data with
  | '-' :: rest => (parseUnsignedQ rest).map Neg.neg
  | '+' :: rest => parseUnsignedQ rest
  | l => parseUnsignedQ l

/-- Model of pd.to_numeric(x, errors='coerce') on one cell: numbers pass
through, strings are parsed, anything unparseable or missing becomes NaN
(here: none). -/
def toNumericQ : CellValue → Option ℚ
  | .num q => some q
  | .missing => none
  | .str s => parseNumQ s

/-! ## Feature definitions (SimpleXGBoostScorer.__init__, lines 31-47) -/

/-- Categorical features of the scorer, in declaration order. -/
def catFeatures : List String :=
  ["customer_segment", "customer_type", "home_ownership", "employment_status",
   "education_level", "city", "heating_type", "seasonal_usage_pattern",
   "current_rate_plan", "contract_type", "previous_provider", "green_energy_preference",
   "tech_savviness", "price_sensitivity", "communication_preference", "paperless_billing",
   "oil_gas_employment", "economic_sensitivity", "regulated_utility_consideration",
   "payment_method", "business_type", "business_size"]

/-- Numeric features of the scorer, in declaration order. -/
def numFeatures : List String :=
  ["tenure_months", "age", "annual_income", "household_size", "home_value",
   "credit_score", "service_address", "monthly_usage_kwh", "peak_demand_kw",
   "property_age", "rate_plan_changes", "satisfaction_score", "nps_score",
   "app_usage_monthly", "website_visits_monthly", "call_center_interactions_12m",
   "competitive_quotes_received", "late_payment_rate", "avg_monthly_bill",
   "complaint_history", "service_interruptions_12m", "bill_shock_events"]

/-- Feature order of the model artifact: all categorical features followed
by all numeric features (line 162: feature_cols = cat_features + num_features). -/
def featureCols : List String := catFeatures ++ numFeatures

/-! ## Training categories (the vocabulary artifact) -/

/-- Per-feature trained vocabulary: an ordered list of valid category strings. -/
abbrev Vocab := List String

/-- The category-vocabulary document: feature name to vocabulary. -/
abbrev TrainCats := List (String × Vocab)

/-- Vocabulary of a column, when the categories document is loaded and has it
(the Python test: training_categories and col in training_categories). -/
def vocabFor (tc : Option TrainCats) (col : String) : Option Vocab :=
  tc.bind fun t => (t.find? (fun p => p.1 == col)).map Prod.snd

/-! ## prepare_features (lines 108-163) -/

/-- One raw input record: a mapping from column names to cell values. -/
abbrev Rec := List (String × CellValue)

/-- A raw dataframe: named columns and one record per row. -/
structure Frame where
  cols : List String
  rows : List Rec

/-- Inputs accepted by prepare_features: a single record (dict), a list of
records, or a dataframe. -/
inductive PyInput where
  | single (r : Rec)
  | list (rs : List Rec)
  | frame (f : Frame)

/-- Append the keys of one record to an accumulated column list, keeping
first occurrences only. -/
def addKeys (acc : List String) (ks : List String) : List String :=
  ks.foldl (fun a k => if a.contains k then a else a ++ [k]) acc

/-- Columns of a dataframe built from a list of records: the union of the
records' keys in order of first appearance. -/
def keysUnion (rs : List Rec) : List String := rs.foldl (fun a r => addKeys a (r.map Prod.fst)) []

/-- Conversion of any accepted input to a dataframe (lines 113-119). -/
def toFrame : PyInput → Frame
  | .single r => ⟨r.map Prod.fst, [r]⟩
  | .list rs => ⟨keysUnion rs, rs⟩
  | .frame f => f

/-- Whether a cleaned column name is present among the (cleaned) dataframe columns. -/
def colPresent (cols : List String) (c : String) : Bool :=
  cols.any (fun c0 => cleanCol c0 == c)

/-- Value of a record at a cleaned column name; a record lacking the key holds NaN. -/
def getCellRaw (r : Rec) (c : String) : CellValue :=
  match r.find? (fun p => cleanCol p.1 == c) with
  | some p => p.2
  | none => .missing

/-- One normalized cell: a categorical value (none models NaN, the result of
casting a value outside the trained categories) or a numeric value. -/
inductive FeatValue where
  | cat (s : Option String)
  | num (q : ℚ)
deriving DecidableEq

/-- Line 143: a normalized value outside the trained vocabulary is remapped
to "unknown". -/
def vocabRemap (vs : Vocab) (s : String) : String := if s ∈ vs then s else "unknown"

/-- Line 144, pd.Categorical(values, categories=vs): a value that is not one
of the categories becomes NaN (none). -/
def categoricalCast (vs : Vocab) (s : String) : Option String :=
  if s ∈ vs then some s else none

/-- Categorical normalization of one cell with an optional trained vocabulary,
mlagent.py lines 140-146: values outside the vocabulary are remapped to
"unknown", then the column is cast to pd.Categorical over the vocabulary. -/
def normalizeCatV (vs? : Option Vocab) (v : CellValue) : Option String :=
  match vs? with
  | some vs => categoricalCast vs (vocabRemap vs (normCatStr v))
  | none => some (normCatStr v)

/-- One categorical output cell (lines 130-152), covering both the
present-column branch and the synthesized missing-column branch. -/
def catCell (tc : Option TrainCats) (present : Bool) (raw : CellValue) (col : String) : FeatValue :=
  if present then
    .cat (normalizeCatV (vocabFor tc col) raw)
  else
    match vocabFor tc col with
    | some vs => .cat (if "unknown" ∈ vs then some "unknown" else none)
    | none => .cat (some "unknown")

/-- One numeric output cell (lines 154-159): pd.to_numeric(...).fillna(0) when
the column is present, the constant 0 when it is absent. -/
def numCell (present : Bool) (raw : CellValue) : FeatValue :=
  if present then .num ((toNumericQ raw).getD 0) else .num 0

/-- The normalized cell of one row at one feature column. -/
def featCellFor (tc : Option TrainCats) (cols : List String) (r : Rec) (c : String) : FeatValue :=
  if c ∈ catFeatures then catCell tc (colPresent cols c) (getCellRaw r c) c
  else numCell (colPresent cols c) (getCellRaw r c)

/-- A normalized feature matrix: named columns and one list of cells per row. -/
structure FeatFrame where
  cols : List String
  rows : List (List FeatValue)
deriving DecidableEq

/-- Model of SimpleXGBoostScorer.prepare_features (lines 108-163): the output
columns are exactly feature_cols and every row is normalized cell by cell. -/
def prepareFeatures (tc : Option TrainCats) (inp : PyInput) : FeatFrame :=
  let f := toFrame inp
  ⟨featureCols, f.rows.map (fun r => featureCols.map (featCellFor tc f.cols r))⟩

/-! ## Sigmoid (SimpleXGBoostScorer.sigmoid, lines 165-167) -/

/-- Sigmoid function converting log-odds to probabilities: 1 / (1 + exp(-x)). -/
noncomputable def sigmoid (x : ℝ) : ℝ := 1 / (1 + Real.exp (-x))

/-! ## Quantile binning (pd.qcut(column, 10, duplicates='drop'), line 207) -/

/-- Ascending sort of a rational list. -/
def sortQ (l : List ℚ) : List ℚ := List.insertionSort (fun a b => a ≤ b) l

/-- Linear-interpolation quantile of an ascending list at fraction q. -/
def quantileOf (sorted : List ℚ) (q : ℚ) : ℚ :=
  let pos : ℚ := q * ((sorted.length : ℚ) - 1)
  let i : ℕ := pos.floor.toNat
  let a := sorted.getD i 0
  let b := sorted.getD (i + 1) a
  a + (pos - (pos.floor : ℚ)) * (b - a)

/-- Collapse adjacent duplicates of a nondecreasing edge list (duplicates='drop'). -/
def dedupAdj : List ℚ → List ℚ
  | [] => []
  | [a] => [a]
  | a :: b :: t => if a = b then dedupAdj (b :: t) else a :: dedupAdj (b :: t)

/-- Decile bin edges of the observed values: the 0%,10%,...,100% quantiles
with duplicate edges dropped. -/
def qcutEdges (xs : List ℚ) : List ℚ :=
  dedupAdj (((List.range 11).map (fun k => ((k : ℚ) / 10))).map (quantileOf (sortQ xs)))

/-- First interval of consecutive edges whose upper bound reaches v. -/
def binSearch (v : ℚ) : List ℚ → Option (ℚ × ℚ)
  | lo :: hi :: t => if v ≤ hi then some (lo, hi) else binSearch v (hi :: t)
  | _ => none

/-- Bin of a value among the edges: left-open right-closed intervals, with
the lowest edge included in the first bin; a value outside the edges gets
no bin (NaN). -/
def binOf (edges : List ℚ) (v : ℚ) : Option (ℚ × ℚ) :=
  match edges with
  | e0 :: _ => if e0 ≤ v then binSearch v edges else none
  | [] => none

/-! ## Grouped SHAP summary (create_shap_summary, lines 169-263) -/

/-- Group label of a value-group: a raw cell value (categorical value or the
numeric fallback when binning is infeasible) or a quantile interval. -/
inductive GroupKey where
  | ofValue (v : FeatValue)
  | interval (lo hi : ℚ)
deriving DecidableEq

/-- Number of rows of the feature matrix. -/
def nRows (X : FeatFrame) : ℕ := X.rows.length

/-- Column index of a feature (X.columns.get_loc). -/
def featIdx (X : FeatFrame) (f : String) : ℕ := X.cols.indexOf f

/-- SHAP value of row i at a feature column (shap_values[i, feature_idx]). -/
def shapAt (shap : List (List ℚ)) (X : FeatFrame) (f : String) (i : ℕ) : ℚ :=
  (shap.getD i []).getD (featIdx X f) 0

/-- Cell of row i at a feature column. -/
def cellAt (X : FeatFrame) (f : String) (i : ℕ) : FeatValue :=
  (X.rows.getD i []).getD (featIdx X f) (.num 0)

/-- Numeric reading of a cell (numeric feature columns hold .num cells). -/
def numValAt (X : FeatFrame) (f : String) (i : ℕ) : ℚ :=
  match cellAt X f i with
  | .num q => q
  | .cat _ => 0

/-- Features the summary iterates over: the declared features present among
the matrix columns (the `if feature in X.columns` guards). -/
def featuresIn (X : FeatFrame) : List String :=
  featureCols.filter (fun f => X.cols.contains f)

/-- Mean absolute SHAP value of a feature over all rows (lines 180-184):
feature_importances[feature] = np.mean(np.abs(feature_shap_values)). -/
def meanAbsShap (shap : List (List ℚ)) (X : FeatFrame) (f : String) : ℚ :=
  (((List.range (nRows X)).map (fun i => |shapAt shap X f i|)).sum) / (nRows X : ℚ)

/-- The (feature, importance) pairs in declared feature order. -/
def importancePairs (shap : List (List ℚ)) (X : FeatFrame) : List (String × ℚ) :=
  (featuresIn X).map (fun f => (f, meanAbsShap shap X f))

/-- Descending-importance order: the order the sorted importance table ends
up in. -/
def impDescRel : (String × ℚ) → (String × ℚ) → Prop := fun a b => b.2 ≤ a.2

instance : DecidableRel impDescRel := fun a b => inferInstanceAs (Decidable (b.2 ≤ a.2))

/-- Ascending-importance order: the base argsort underlying sort_values. -/
def impAscRel : (String × ℚ) → (String × ℚ) → Prop := fun a b => a.2 ≤ b.2

instance : DecidableRel impAscRel := fun a b => inferInstanceAs (Decidable (a.2 ≤ b.2))

/-- Importance table sorted by importance descending (lines 187-188):
sort_values(ascending=False) computes an ascending argsort of the column
and reverses the indexer, so the rows tied on importance come out in the
reverse of the base argsort's order.  The base argsort's tie order is
implementation-defined (numpy quicksort); it is modelled here as the
stable order, so ties of the descending table appear in reverse feature
order. -/
def sortedImportance (shap : List (List ℚ)) (X : FeatFrame) : List (String × ℚ) :=
  (List.insertionSort impAscRel (importancePairs shap X)).reverse

/-- Rank of a feature: its 1-based position in the descending importance
table (lines 189-190). -/
def rankOf (shap : List (List ℚ)) (X : FeatFrame) (f : String) : ℕ :=
  ((sortedImportance shap X).map Prod.fst).indexOf f + 1

/-- Numeric column of a feature, row by row. -/
def numColumn (X : FeatFrame) (f : String) : List ℚ :=
  (List.range (nRows X)).map (numValAt X f)

/-- Group key of row i for a feature (lines 204-212): decile bins for a
numeric feature when qcut succeeds, otherwise the raw value; the plain value
for a categorical feature.  A NaN cell gets no key (groupby drops it). -/
def rowKeyForFeature (X : FeatFrame) (f : String) (i : ℕ) : Option GroupKey :=
  if numFeatures.contains f then
    let edges := qcutEdges (numColumn X f)
    if 2 ≤ edges.length then
      (binOf edges (numValAt X f i)).map (fun p => .interval p.1 p.2)
    else
      match cellAt X f i with
      | .cat none => none
      | v => some (.ofValue v)
  else
    match cellAt X f i with
    | .cat none => none
    | v => some (.ofValue v)

/-- Distinct elements of a list in order of first occurrence. -/
def firstOccs : List GroupKey → List GroupKey
  | [] => []
  | k :: ks => k :: (firstOccs ks).filter (fun x => !(x == k))

/-- The observed group keys of a feature. -/
def groupKeys (X : FeatFrame) (f : String) : List GroupKey :=
  firstOccs ((List.range (nRows X)).filterMap (rowKeyForFeature X f))

/-- Row indices belonging to one group of a feature. -/
def groupMembers (X : FeatFrame) (f : String) (k : GroupKey) : List ℕ :=
  (List.range (nRows X)).filter (fun i => rowKeyForFeature X f i == some k)

/-- Average SHAP value over the rows of one group (line 215:
df.groupby('Group')['SHAP Value'].mean()). -/
def groupMeanShap (shap : List (List ℚ)) (X : FeatFrame) (f : String) (k : GroupKey) : ℚ :=
  ((groupMembers X f k).map (shapAt shap X f)).sum / ((groupMembers X f k).length : ℚ)

/-- One row of the per-feature group table group_avg (lines 215-220). -/
structure GroupAvg where
  key : GroupKey
  shapValue : ℚ
  adjustedProbability : ℝ
  probabilityChange : ℝ
  feature : String
  featureImportance : ℚ
  importanceRank : ℕ

/-- The group table of one feature (lines 202-221): one row per observed
group carrying the group's mean SHAP value, the adjusted probability
sigmoid(base_value + mean_shap), the probability change against the base
probability, and the feature's importance and rank. -/
noncomputable def groupAvgRows (shap : List (List ℚ)) (X : FeatFrame) (b : ℝ) (f : String) :
    List GroupAvg :=
  (groupKeys X f).map (fun k =>
    { key := k
      shapValue := groupMeanShap shap X f k
      adjustedProbability := sigmoid (b + (groupMeanShap shap X f k : ℝ))
      probabilityChange := (sigmoid (b + (groupMeanShap shap X f k : ℝ)) - sigmoid b) * 100
      feature := f
      featureImportance := meanAbsShap shap X f
      importanceRank := rankOf shap X f })

/-- One row of the summary returned to the caller (lines 241-248). -/
structure SummaryRow where
  feature : String
  featureGroup : GroupKey
  featureEffect : String
  probabilityContribution : ℝ
  importanceRank : ℕ
  shapValue : ℚ

/-- Summary row built from one group row (lines 228-248): the effect label
comes from the sign of the probability change and the contribution is its
absolute value. -/
noncomputable def toSummaryRow (g : GroupAvg) : SummaryRow :=
  { feature := g.feature
    featureGroup := g.key
    featureEffect := if 0 < g.probabilityChange then "increases" else "decreases"
    probabilityContribution := |g.probabilityChange|
    importanceRank := g.importanceRank
    shapValue := g.shapValue }

/-- All summary rows before the final sort, feature by feature (lines 193-250). -/
noncomputable def summaryRowsUnsorted (shap : List (List ℚ)) (X : FeatFrame) (b : ℝ) :
    List SummaryRow :=
  ((featuresIn X).map (fun f => (groupAvgRows shap X b f).map toSummaryRow)).flatten

/-- Order of the final summary sort (lines 252-257): importance rank
ascending, probability contribution descending. -/
def rankContribRel : SummaryRow → SummaryRow → Prop := fun a b =>
  a.importanceRank < b.importanceRank ∨
    (a.importanceRank = b.importanceRank ∧ b.probabilityContribution ≤ a.probabilityContribution)

noncomputable instance : DecidableRel rankContribRel := fun _ _ => Classical.propDecidable _

/-- Model of create_shap_summary (lines 169-263). -/
noncomputable def createShapSummary (shap : List (List ℚ)) (X : FeatFrame) (b : ℝ) :
    List SummaryRow :=
  let rows := summaryRowsUnsorted shap X b
  if 0 < rows.length then List.insertionSort rankContribRel rows else rows

/-! ## Factor selector (analyze_model_with_shap_tool, lines 407-417) -/

/-- Direction filter (lines 408-411): the positive direction keeps rows with
SHAP_Value > 0, any other direction keeps rows with SHAP_Value < 0. -/
def filterByDirection (dir : String) (rows : List SummaryRow) : List SummaryRow :=
  if pyLower dir = "positive" then rows.filter (fun r => decide (0 < r.shapValue))
  else rows.filter (fun r => decide (r.shapValue < 0))

/-- Order of the selector's sort (line 417): probability contribution descending. -/
def contribDescRel : SummaryRow → SummaryRow → Prop := fun a b =>
  b.probabilityContribution ≤ a.probabilityContribution

noncomputable instance : DecidableRel contribDescRel := fun _ _ => Classical.propDecidable _

/-- The ranked factor rows of the final report (line 417). -/
noncomputable def reportRows (dir : String) (rows : List SummaryRow) : List SummaryRow :=
  List.insertionSort contribDescRel (filterByDirection dir rows)

/-- Outcome of the selector: a no-contributing-factors message or a report. -/
inductive ToolResult where
  | noFactors
  | report (rows : List SummaryRow)

/-- Model of the selection step of analyze_model_with_shap_tool
(lines 407-417): filter by direction, return the no-factors message when
nothing remains, otherwise sort by probability contribution descending. -/
noncomputable def selectFactors (dir : String) (rows : List SummaryRow) : ToolResult :=
  let filtered := filterByDirection dir rows
  if filtered.length = 0 then .noFactors else .report (reportRows dir rows)

/-! ## Scoring call (score_model, lines 265-333) -/

/-- Hardcoded base values per model filename (lines 55-63). -/
def baseValues : List (String × ℚ) :=
  [("churn_model.pkl", -0.14260683953762054),
   ("crosssell_hvac_model.pkl", 0.5818970799446106),
   ("crosssell_insurance_model.pkl", 0.5098369717597961),
   ("crosssell_solar_model.pkl", 0.16068263351917267),
   ("upsell_efficiency_analysis_model.pkl", 0.22734493017196655),
   ("upsell_green_plan_model.pkl", -0.5518404841423035),
   ("upsell_surge_protection_model.pkl", -0.06109029799699783)]

/-- External artifacts a scoring call can load: a model (a per-row scoring
function), a SHAP explainer (which may fail), and the categories document. -/
structure ScoreEnv where
  models : String → Option (List FeatValue → ℚ)
  explainers : String → Option (List (List FeatValue) → Except String (List (List ℚ)))
  trainingCategories : Option TrainCats

/-- Result dictionary of score_model: fields absent from the dict are none. -/
structure ScoreResult where
  error : Option String := none
  modelName : Option String := none
  predictions : Option (List ℚ) := none
  averagePrediction : Option ℚ := none
  numSamples : Option ℕ := none
  prediction : Option ℚ := none
  baseValue : Option ℚ := none
  shapWarning : Option String := none
  shapError : Option String := none
  shapSummaryData : Option (List SummaryRow) := none

/-- Basic response fields of a successful scoring call (lines 298-308). -/
def basicResult (preds : List ℚ) (modelName : String) (n : ℕ) : ScoreResult :=
  { modelName := some modelName
    predictions := some preds
    averagePrediction := some (preds.sum / (preds.length : ℚ))
    numSamples := some n
    prediction := if preds.length = 1 then some (preds.getD 0 0) else none }

/-- Body of score_model once the model artifact has loaded (lines 289-330). -/
noncomputable def scoreModelLoaded (env : ScoreEnv) (predict : List FeatValue → ℚ)
    (modelName : String) (features : PyInput) (shapEnabled : Bool) : ScoreResult :=
  let X := prepareFeatures env.trainingCategories features
  let base := basicResult (X.rows.map predict) modelName X.rows.length
  if shapEnabled then
    match env.explainers (modelName ++ "_shap_explainer.pkl") with
    | none =>
        let warn := "Could not load SHAP explainer: " ++ modelName ++ "_shap_explainer.pkl"
        { base with shapWarning := some warn }
    | some ex =>
      match ex X.rows with
      | .error e => { base with shapError := some ("SHAP calculation failed: " ++ e) }
      | .ok sv =>
          let bv := ((baseValues.find? (fun p => p.1 == modelName ++ "_model.pkl")).map
            Prod.snd).getD 0
          { base with
              baseValue := some bv
              shapSummaryData := some (createShapSummary sv X (bv : ℝ)) }
  else base

/-- Model of SimpleXGBoostScorer.score_model (lines 265-333): predictions are
always produced once the model loads; SHAP problems only add a warning or
error field next to them. -/
noncomputable def scoreModel (env : ScoreEnv) (modelName : String) (features : PyInput)
    (shapEnabled : Bool) : ScoreResult :=
  match env.models (modelName ++ "_model.pkl") with
  | none => { error := some ("Failed to load model: " ++ modelName ++ "_model.pkl") }
  | some predict => scoreModelLoaded env predict modelName features shapEnabled

/-! ## Sigmoid lemmas -/

theorem sigmoid_strictMono : StrictMono sigmoid := by
  intro x y hxy
  unfold sigmoid
  have h1 : Real.exp (-y) < Real.exp (-x) := Real.exp_lt_exp.mpr (by linarith)
  have h2 : 0 < 1 + Real.exp (-y) := by positivity
  exact one_div_lt_one_div_of_lt h2 (by linarith)

theorem sigmoid_lt_sigmoid_iff {x y : ℝ} : sigmoid x < sigmoid y ↔ x < y :=
  sigmoid_strictMono.lt_iff_lt

/-! ## Membership in the summary -/

theorem mem_summaryRowsUnsorted {r : SummaryRow} {shap : List (List ℚ)} {X : FeatFrame} {b : ℝ}
    (h : r ∈ summaryRowsUnsorted shap X b) :
    ∃ f ∈ featuresIn X, ∃ g ∈ groupAvgRows shap X b f, r = toSummaryRow g := by
  unfold summaryRowsUnsorted at h
  rw [List.mem_flatten] at h
  obtain ⟨l, hl, hrl⟩ := h
  rw [List.mem_map] at hl
  obtain ⟨f, hf, rfl⟩ := hl
  rw [List.mem_map] at hrl
  obtain ⟨g, hg, rfl⟩ := hrl
  exact ⟨f, hf, g, hg, rfl⟩

theorem mem_createShapSummary {r : SummaryRow} {shap : List (List ℚ)} {X : FeatFrame} {b : ℝ}
    (h : r ∈ createShapSummary shap X b) :
    ∃ f ∈ featuresIn X, ∃ g ∈ groupAvgRows shap X b f, r = toSummaryRow g := by
  unfold createShapSummary at h
  by_cases hc : 0 < (summaryRowsUnsorted shap X b).length
  · rw [if_pos hc] at h
    exact mem_summaryRowsUnsorted
      (((List.perm_insertionSort rankContribRel (summaryRowsUnsorted shap X b)).mem_iff).mp h)
  · rw [if_neg hc] at h
    exact mem_summaryRowsUnsorted h

/-! ## C1 -/

/-- C1: every group produced by the attribution aggregator carries a
probability delta equal to (sigmoid(base_value + mean_shap) − sigmoid(base_value)) × 100,
where mean_shap is the average SHAP value over the rows of that group; a
group with mean_shap = 0 has probability delta exactly 0, and consequently
its row in the returned summary has probability contribution exactly 0. -/
theorem probability_delta_formula (shap : List (List ℚ)) (X : FeatFrame) (b : ℝ) :
    (∀ f, (groupAvgRows shap X b f).Forall (fun g =>
      g.probabilityChange = (sigmoid (b + (g.shapValue : ℝ)) - sigmoid b) * 100 ∧
      g.shapValue = ((groupMembers X f g.key).map (shapAt shap X f)).sum
          / ((groupMembers X f g.key).length : ℚ) ∧
      (g.shapValue = 0 → g.probabilityChange = 0))) ∧
    (createShapSummary shap X b).Forall (fun r => r.shapValue = 0 → r.probabilityContribution = 0) := by
  constructor
  · intro f
    rw [List.forall_iff_forall_mem]
    intro g hg
    unfold groupAvgRows at hg
    rw [List.mem_map] at hg
    obtain ⟨k, hk, rfl⟩ := hg
    refine ⟨rfl, rfl, fun h0 => ?_⟩
    have h0q : groupMeanShap shap X f k = 0 := h0
    show (sigmoid (b + ((groupMeanShap shap X f k : ℚ) : ℝ)) - sigmoid b) * 100 = 0
    rw [h0q]
    push_cast
    simp
  · rw [List.forall_iff_forall_mem]
    intro r hr h0
    obtain ⟨f, hf, g, hg, rfl⟩ := mem_createShapSummary hr
    unfold groupAvgRows at hg
    rw [List.mem_map] at hg
    obtain ⟨k, hk, rfl⟩ := hg
    have h0q : groupMeanShap shap X f k = 0 := h0
    show |(sigmoid (b + ((groupMeanShap shap X f k : ℚ) : ℝ)) - sigmoid b) * 100| = 0
    rw [h0q]
    push_cast
    simp

/-! ## List access helpers -/

theorem getD_map_indexOf {α β : Type} [DecidableEq α] (l : List α) (f : α → β) (c : α) (d : β)
    (h : c ∈ l) : (l.map f).getD (l.indexOf c) d = f c := by
  have hlt : l.indexOf c < l.length := List.indexOf_lt_length.mpr h
  rw [List.getD_eq_getElem?_getD, List.getElem?_map, List.getElem?_eq_getElem hlt]
  simp [List.getElem_indexOf hlt]

theorem getD_map_lt {α β : Type} (l : List α) (f : α → β) (i : ℕ) (d : β) (d0 : α)
    (h : i < l.length) : (l.map f).getD i d = f (l.getD i d0) := by
  rw [List.getD_eq_getElem?_getD, List.getElem?_map, List.getElem?_eq_getElem h,
      List.getD_eq_getElem?_getD, List.getElem?_eq_getElem h]
  rfl

/-! ## Well-formed vocabulary artifacts

A trained vocabulary reserves the "unknown" bucket and, being a list of
valid training-time category strings, does not contain the stringified
missing marker "nan". -/

/-- Well-formedness of the loaded categories document. -/
def WellFormedTC : Option TrainCats → Prop
  | none => True
  | some t => ∀ p ∈ t, "unknown" ∈ p.2 ∧ "nan" ∉ p.2

instance : DecidablePred WellFormedTC := fun tc =>
  match tc with
  | none => inferInstanceAs (Decidable True)
  | some t => inferInstanceAs (Decidable (∀ p ∈ t, "unknown" ∈ p.2 ∧ "nan" ∉ p.2))

theorem wf_vocabFor {tc : Option TrainCats} {c : String} {vs : Vocab}
    (h : WellFormedTC tc) (hv : vocabFor tc c = some vs) : "unknown" ∈ vs ∧ "nan" ∉ vs := by
  match tc with
  | none => simp [vocabFor] at hv
  | some t =>
    cases hfind : t.find? (fun p => p.1 == c) with
    | none => simp [vocabFor, hfind] at hv
    | some p =>
      have hv2 : p.2 = vs := by
        simp only [vocabFor, hfind, Option.some_bind] at hv
        simpa using hv
      subst hv2
      exact h p (List.mem_of_find?_eq_some hfind)

/-- The categorical and numeric feature name lists are disjoint. -/
theorem cat_num_disjoint : ∀ c ∈ numFeatures, c ∉ catFeatures := by decide

theorem mem_featureCols_of_cat {c : String} (h : c ∈ catFeatures) : c ∈ featureCols := by
  unfold featureCols
  exact List.mem_append_left _ h

theorem mem_featureCols_of_num {c : String} (h : c ∈ numFeatures) : c ∈ featureCols := by
  unfold featureCols
  exact List.mem_append_right _ h

/-! ## C2 -/

/-- C2: the normalizer's output always has columns exactly equal to the
artifact's feature order (categorical features then numeric features), one
output row per input row, every row as wide as the feature order, and any
feature absent from the input synthesized with its default: "unknown" for a
categorical feature, 0 for a numeric one. -/
theorem normalize_columns_exact (tc : Option TrainCats) (inp : PyInput) (h : WellFormedTC tc) :
    (prepareFeatures tc inp).cols = catFeatures ++ numFeatures ∧
    (prepareFeatures tc inp).rows.length = (toFrame inp).rows.length ∧
    (prepareFeatures tc inp).rows.Forall (fun row => row.length = featureCols.length) ∧
    (∀ c ∈ catFeatures, colPresent (toFrame inp).cols c = false →
      (prepareFeatures tc inp).rows.Forall
        (fun row => row.getD (featureCols.indexOf c) (.num 0) = .cat (some "unknown"))) ∧
    (∀ c ∈ numFeatures, colPresent (toFrame inp).cols c = false →
      (prepareFeatures tc inp).rows.Forall
        (fun row => row.getD (featureCols.indexOf c) (.num 0) = .num 0)) := by
  refine ⟨rfl, List.length_map _ _, ?_, ?_, ?_⟩
  · rw [List.forall_iff_forall_mem]
    intro row hrow
    simp only [prepareFeatures] at hrow
    rw [List.mem_map] at hrow
    obtain ⟨r, _, rfl⟩ := hrow
    exact List.length_map _ _
  · intro c hc habs
    rw [List.forall_iff_forall_mem]
    intro row hrow
    simp only [prepareFeatures] at hrow
    rw [List.mem_map] at hrow
    obtain ⟨r, _, rfl⟩ := hrow
    rw [getD_map_indexOf _ _ _ _ (mem_featureCols_of_cat hc)]
    unfold featCellFor
    rw [if_pos hc]
    unfold catCell
    rw [habs]
    simp only [Bool.false_eq_true, if_false]
    cases hv : vocabFor tc c with
    | none => rfl
    | some vs =>
        have := (wf_vocabFor h hv).1
        simp [this]
  · intro c hc habs
    rw [List.forall_iff_forall_mem]
    intro row hrow
    simp only [prepareFeatures] at hrow
    rw [List.mem_map] at hrow
    obtain ⟨r, _, rfl⟩ := hrow
    rw [getD_map_indexOf _ _ _ _ (mem_featureCols_of_num hc)]
    unfold featCellFor
    rw [if_neg (cat_num_disjoint c hc)]
    unfold numCell
    rw [habs]
    simp

/-- Concrete inputs for the witnesses. -/
def tcW : Option TrainCats := some [("city", ["unknown", "calgary", "edmonton"])]

def inpW : PyInput := .single [("City ", .str " Calgary"), ("extra_col", .num 3)]

/-- Witness for C2 at a concrete categories document and a concrete record
with one extra column and most features missing. -/
theorem normalize_columns_exact_witness :
    WellFormedTC tcW ∧
    ((prepareFeatures tcW inpW).cols = catFeatures ++ numFeatures ∧
    (prepareFeatures tcW inpW).rows.length = (toFrame inpW).rows.length ∧
    (prepareFeatures tcW inpW).rows.Forall (fun row => row.length = featureCols.length) ∧
    (∀ c ∈ catFeatures, colPresent (toFrame inpW).cols c = false →
      (prepareFeatures tcW inpW).rows.Forall
        (fun row => row.getD (featureCols.indexOf c) (.num 0) = .cat (some "unknown"))) ∧
    (∀ c ∈ numFeatures, colPresent (toFrame inpW).cols c = false →
      (prepareFeatures tcW inpW).rows.Forall
        (fun row => row.getD (featureCols.indexOf c) (.num 0) = .num 0))) :=
  ⟨by decide, normalize_columns_exact tcW inpW (by decide)⟩

/-! ## C10 -/

/-- C10: in every row of the summary returned to the caller the
probability_contribution field is the absolute value of the group's
probability change, hence non-negative; the direction of the effect is
carried by the feature_effect label (and equivalently by the sign of the
raw SHAP_Value field). -/
theorem probability_contribution_nonneg (shap : List (List ℚ)) (X : FeatFrame) (b : ℝ) :
    (createShapSummary shap X b).Forall (fun r =>
      r.probabilityContribution = |(sigmoid (b + (r.shapValue : ℝ)) - sigmoid b) * 100| ∧
      0 ≤ r.probabilityContribution ∧
      (r.featureEffect = "increases" ↔ 0 < r.shapValue) ∧
      (r.featureEffect = "decreases" ↔ r.shapValue ≤ 0)) := by
  rw [List.forall_iff_forall_mem]
  intro r hr
  obtain ⟨f, hf, g, hg, rfl⟩ := mem_createShapSummary hr
  unfold groupAvgRows at hg
  rw [List.mem_map] at hg
  obtain ⟨k, hk, rfl⟩ := hg
  have hsign : (0 : ℝ) <
      (sigmoid (b + (groupMeanShap shap X f k : ℝ)) - sigmoid b) * 100 ↔
      0 < groupMeanShap shap X f k := by
    rw [mul_pos_iff_of_pos_right (by norm_num), sub_pos, sigmoid_lt_sigmoid_iff]
    constructor
    · intro h
      have : (0 : ℝ) < (groupMeanShap shap X f k : ℝ) := by linarith
      exact_mod_cast this
    · intro h
      have : (0 : ℝ) < (groupMeanShap shap X f k : ℝ) := by exact_mod_cast h
      linarith
  constructor
  · rfl
  refine ⟨abs_nonneg _, ?_, ?_⟩
  · simp only [toSummaryRow]
    by_cases h : (0 : ℝ) < (sigmoid (b + (groupMeanShap shap X f k : ℝ)) - sigmoid b) * 100
    · rw [if_pos h]
      simpa using hsign.mp h
    · rw [if_neg h]
      have : ¬ (0 < groupMeanShap shap X f k) := fun hq => h (hsign.mpr hq)
      constructor
      · intro heq
        exact absurd heq (by decide)
      · intro hq
        exact absurd hq this
  · simp only [toSummaryRow]
    by_cases h : (0 : ℝ) < (sigmoid (b + (groupMeanShap shap X f k : ℝ)) - sigmoid b) * 100
    · rw [if_pos h]
      have hq := hsign.mp h
      constructor
      · intro heq
        exact absurd heq (by decide)
      · intro hle
        exact absurd hq (not_lt.mpr hle)
    · rw [if_neg h]
      have : ¬ (0 < groupMeanShap shap X f k) := fun hq => h (hsign.mpr hq)
      exact ⟨fun _ => not_lt.mp this, fun _ => rfl⟩

/-! ## String canonicalization lemmas (for C3) -/

theorem pyLowerChar_toNat (c : Char) :
    (pyLowerChar c).toNat = if 65 ≤ c.toNat ∧ c.toNat ≤ 90 then c.toNat + 32 else c.toNat := by
  unfold pyLowerChar
  split
  · next h =>
    have hb : c.val.toBitVec.toNat = c.toNat := rfl
    have hv : (c.val.toBitVec.toNat + 32).isValidChar := Or.inl (by omega)
    simp [Char.ofNat, Char.ofNatAux, Char.toNat, UInt32.toNat, UInt32.ofNatCore,
      BitVec.toNat_ofNatLt, hv]
  · rfl

theorem pyLowerChar_idem (c : Char) : pyLowerChar (pyLowerChar c) = pyLowerChar c := by
  have h1 := pyLowerChar_toNat c
  have h2 : ¬ (65 ≤ (pyLowerChar c).toNat ∧ (pyLowerChar c).toNat ≤ 90) := by
    by_cases h : 65 ≤ c.toNat ∧ c.toNat ≤ 90
    · rw [if_pos h] at h1
      omega
    · rw [if_neg h] at h1
      omega
  show (if 65 ≤ (pyLowerChar c).toNat ∧ (pyLowerChar c).toNat ≤ 90 then
      Char.ofNat ((pyLowerChar c).toNat + 32) else pyLowerChar c) = pyLowerChar c
  rw [if_neg h2]

theorem isPySpace_pyLowerChar (c : Char) : isPySpace (pyLowerChar c) = isPySpace c := by
  have h1 := pyLowerChar_toNat c
  rw [Bool.eq_iff_iff]
  simp only [isPySpace, Bool.or_eq_true, decide_eq_true_eq, h1]
  by_cases h : 65 ≤ c.toNat ∧ c.toNat ≤ 90
  · rw [if_pos h]
    omega
  · rw [if_neg h]

theorem map_pyLowerChar_idem (l : List Char) :
    (l.map pyLowerChar).map pyLowerChar = l.map pyLowerChar := by
  rw [List.map_map]
  exact List.map_congr_left (fun c _ => pyLowerChar_idem c)

theorem head_dropWhile_false {p : Char → Bool} {l : List Char} {a : Char} {t : List Char}
    (hm : l.dropWhile p = a :: t) : p a = false := by
  have h1 : (a :: t).dropWhile p = a :: t := by rw [← hm, List.dropWhile_idempotent]
  rw [List.dropWhile_cons] at h1
  by_cases hp : p a
  · rw [if_pos hp] at h1
    have h2 : (t.dropWhile p).length ≤ t.length := (List.dropWhile_sublist p).length_le
    rw [h1] at h2
    simp at h2
  · simp only [Bool.not_eq_true] at hp
    exact hp

theorem dropWhile_append_singleton {p : Char → Bool} {a : Char} (ha : p a = false)
    (xs : List Char) : (xs ++ [a]).dropWhile p = xs.dropWhile p ++ [a] := by
  induction xs with
  | nil => simp [List.dropWhile_cons, ha]
  | cons x t ih =>
    cases hx : p x with
    | true => simp [List.dropWhile_cons, hx, ih]
    | false => simp [List.dropWhile_cons, hx]

theorem dropWhile_strip {p : Char → Bool} (l : List Char) :
    (((l.dropWhile p).reverse.dropWhile p).reverse).dropWhile p =
    ((l.dropWhile p).reverse.dropWhile p).reverse := by
  cases hm : l.dropWhile p with
  | nil => simp
  | cons a t =>
    have ha := head_dropWhile_false hm
    rw [List.reverse_cons, dropWhile_append_singleton ha, List.reverse_append]
    simp only [List.reverse_cons, List.reverse_nil, List.nil_append, List.singleton_append]
    rw [List.dropWhile_cons]
    simp [ha]

theorem stripList_dropWhile (l : List Char) :
    (stripList l).dropWhile isPySpace = stripList l := dropWhile_strip l

theorem stripList_idem (l : List Char) : stripList (stripList l) = stripList l := by
  show (((stripList l).dropWhile isPySpace).reverse.dropWhile isPySpace).reverse = stripList l
  rw [stripList_dropWhile]
  show (((((l.dropWhile isPySpace).reverse.dropWhile isPySpace).reverse).reverse).dropWhile
    isPySpace).reverse = stripList l
  rw [List.reverse_reverse, List.dropWhile_idempotent]
  rfl

theorem stripList_map_pyLowerChar (l : List Char) :
    stripList (l.map pyLowerChar) = (stripList l).map pyLowerChar := by
  have hcomp : isPySpace ∘ pyLowerChar = isPySpace := funext isPySpace_pyLowerChar
  have hdw : ∀ (m : List Char),
      (m.map pyLowerChar).dropWhile isPySpace = (m.dropWhile isPySpace).map pyLowerChar := by
    intro m
    rw [List.dropWhile_map, hcomp]
  show (((l.map pyLowerChar).dropWhile isPySpace).reverse.dropWhile isPySpace).reverse =
    (((l.dropWhile isPySpace).reverse.dropWhile isPySpace)).reverse.map pyLowerChar
  rw [hdw, ← List.map_reverse, hdw, List.map_reverse]

theorem canonStr_idem (s : String) : canonStr (canonStr s) = canonStr s := by
  show String.mk (stripList ((String.mk (stripList (s.data.map pyLowerChar))).data.map
    pyLowerChar)) = String.mk (stripList (s.data.map pyLowerChar))
  show String.mk (stripList ((stripList (s.data.map pyLowerChar)).map pyLowerChar)) =
    String.mk (stripList (s.data.map pyLowerChar))
  rw [← stripList_map_pyLowerChar, map_pyLowerChar_idem, stripList_idem]

theorem normCatStr_str_fixed {v : CellValue} (h : normCatStr v ≠ "nan") :
    normCatStr (.str (normCatStr v)) = normCatStr v := by
  unfold normCatStr at h ⊢
  by_cases he : canonStr (preClean v) = ""
  · rw [if_pos he] at h ⊢
    decide
  · rw [if_neg he] at h ⊢
    have hw : preClean (.str (canonStr (preClean v))) = canonStr (preClean v) := by
      unfold preClean
      show (if canonStr (preClean v) = "nan" then "unknown" else canonStr (preClean v)) =
        canonStr (preClean v)
      rw [if_neg h]
    rw [hw, canonStr_idem, if_neg he]

/-! ## Vocabulary normalization lemmas -/

theorem normalizeCatV_some (vs : Vocab) (v : CellValue) :
    normalizeCatV (some vs) v = categoricalCast vs (vocabRemap vs (normCatStr v)) := rfl

theorem normalizeCatV_not_mem {vs : Vocab} {v : CellValue} (hu : "unknown" ∈ vs)
    (h : normCatStr v ∉ vs) : normalizeCatV (some vs) v = some "unknown" := by
  rw [normalizeCatV_some]
  unfold vocabRemap
  rw [if_neg h]
  unfold categoricalCast
  rw [if_pos hu]

theorem normalizeCatV_mem {vs : Vocab} {v : CellValue} (h : normCatStr v ∈ vs) :
    normalizeCatV (some vs) v = some (normCatStr v) := by
  rw [normalizeCatV_some]
  unfold vocabRemap
  rw [if_pos h]
  unfold categoricalCast
  rw [if_pos h]

theorem normalizeCatV_of_norm_eq {vs : Vocab} {v : CellValue} {u : String}
    (hnorm : normCatStr v = u) (huv : u ∈ vs) : normalizeCatV (some vs) v = some u := by
  rw [normalizeCatV_some, hnorm]
  unfold vocabRemap
  rw [if_pos huv]
  unfold categoricalCast
  rw [if_pos huv]

theorem normalizeCatV_idem {vs : Vocab} {v : CellValue} {w : String} (hu : "unknown" ∈ vs)
    (hn : "nan" ∉ vs) (hw : normalizeCatV (some vs) v = some w) :
    normalizeCatV (some vs) (.str w) = some w := by
  by_cases hm : normCatStr v ∈ vs
  · rw [normalizeCatV_mem hm] at hw
    have hw2 : w = normCatStr v := by
      simpa using hw.symm
    subst hw2
    have hfix : normCatStr (.str (normCatStr v)) = normCatStr v :=
      normCatStr_str_fixed (fun hnan => hn (hnan ▸ hm))
    exact normalizeCatV_of_norm_eq hfix hm
  · rw [normalizeCatV_not_mem hu hm] at hw
    have hw2 : w = "unknown" := by
      simpa using hw.symm
    subst hw2
    have hcomp : normCatStr (.str "unknown") = "unknown" := by decide
    exact normalizeCatV_of_norm_eq hcomp hu

/-! ## C3 -/

/-- C3: with a trained vocabulary, any input whose normalized value lies
outside the vocabulary is mapped to the reserved value "unknown" (null and
empty inputs included); no row is ever dropped; and re-normalizing an
already-normalized value (in particular "unknown") yields the
same value.  The vocabulary artifact is assumed well formed: it reserves
the "unknown" bucket and does not list the missing marker "nan" as a
category. -/
theorem unknown_bucket_idempotent (vs : Vocab) (v : CellValue) (tc : Option TrainCats)
    (inp : PyInput) (hu : "unknown" ∈ vs) (hn : "nan" ∉ vs) :
    (normCatStr v ∉ vs → normalizeCatV (some vs) v = some "unknown") ∧
    (normalizeCatV (some vs) .missing = some "unknown") ∧
    (normalizeCatV (some vs) (.str "") = some "unknown") ∧
    (normalizeCatV (some vs) (.str "unknown") = some "unknown") ∧
    (∀ w, normalizeCatV (some vs) v = some w → normalizeCatV (some vs) (.str w) = some w) ∧
    (prepareFeatures tc inp).rows.length = (toFrame inp).rows.length := by
  have hmiss : normCatStr CellValue.missing = "unknown" := by decide
  have hempty : normCatStr (.str "") = "unknown" := by decide
  have hunk : normCatStr (.str "unknown") = "unknown" := by decide
  exact ⟨fun h => normalizeCatV_not_mem hu h,
    normalizeCatV_of_norm_eq hmiss hu,
    normalizeCatV_of_norm_eq hempty hu,
    normalizeCatV_of_norm_eq hunk hu,
    fun w hw => normalizeCatV_idem hu hn hw,
    List.length_map _ _⟩

/-- Concrete vocabulary and out-of-vocabulary value for the C3 witness. -/
def vsW : Vocab := ["unknown", "calgary", "edmonton"]

def vW : CellValue := .str "Atlantis"

/-- Witness for C3: the out-of-vocabulary value "Atlantis" at a concrete
three-word vocabulary. -/
theorem unknown_bucket_idempotent_witness :
    ("unknown" ∈ vsW ∧ "nan" ∉ vsW) ∧
    ((normCatStr vW ∉ vsW → normalizeCatV (some vsW) vW = some "unknown") ∧
    (normalizeCatV (some vsW) .missing = some "unknown") ∧
    (normalizeCatV (some vsW) (.str "") = some "unknown") ∧
    (normalizeCatV (some vsW) (.str "unknown") = some "unknown") ∧
    (∀ w, normalizeCatV (some vsW) vW = some w → normalizeCatV (some vsW) (.str w) = some w) ∧
    (prepareFeatures tcW inpW).rows.length = (toFrame inpW).rows.length) :=
  ⟨⟨by decide, by decide⟩,
    unknown_bucket_idempotent vsW vW tcW inpW (by decide) (by decide)⟩

/-! ## C6 -/

/-- C6: the positive direction keeps exactly the summary rows whose mean
SHAP value is strictly positive, the negative direction exactly those
strictly negative; a zero-SHAP row appears in no direction; and an empty
filtered set makes the selector return the no-factors result instead of
failing. -/
theorem direction_filter_strict (dir : String) (rows : List SummaryRow) :
    (∀ r, r ∈ filterByDirection "positive" rows ↔ r ∈ rows ∧ 0 < r.shapValue) ∧
    (∀ r, r ∈ filterByDirection "negative" rows ↔ r ∈ rows ∧ r.shapValue < 0) ∧
    (∀ r ∈ rows, r.shapValue = 0 → r ∉ filterByDirection dir rows) ∧
    ((filterByDirection dir rows).length = 0 → selectFactors dir rows = .noFactors) := by
  have hpos : filterByDirection "positive" rows =
      rows.filter (fun r => decide (0 < r.shapValue)) := by
    unfold filterByDirection
    rw [if_pos (by decide)]
  have hneg : filterByDirection "negative" rows =
      rows.filter (fun r => decide (r.shapValue < 0)) := by
    unfold filterByDirection
    rw [if_neg (by decide)]
  refine ⟨?_, ?_, ?_, ?_⟩
  · intro r
    rw [hpos, List.mem_filter]
    simp
  · intro r
    rw [hneg, List.mem_filter]
    simp
  · intro r _ h0 hmem
    unfold filterByDirection at hmem
    by_cases hd : pyLower dir = "positive"
    · rw [if_pos hd, List.mem_filter] at hmem
      rw [h0] at hmem
      simp at hmem
    · rw [if_neg hd, List.mem_filter] at hmem
      rw [h0] at hmem
      simp at hmem
  · intro h
    unfold selectFactors
    simp only [h, if_pos]

/-! ## C7 -/

/-- Record whose numeric "age" cell is unparseable text. -/
def recBadAge : Rec := [("age", .str "abc")]

/-- Record whose numeric "age" cell is a literal zero. -/
def recZeroAge : Rec := [("age", .num 0)]

/-- C7 counterexample: the normalizer's entire output on a record whose
"age" is unparseable (hence defaulted to 0) is identical to its output on a
record whose "age" is literally 0, and the unparseable value is indeed
coerced to NaN first — so the output reports nothing about which fields
were defaulted, contrary to the claim. -/
theorem no_defaulted_fields_report :
    prepareFeatures none (.single recBadAge) = prepareFeatures none (.single recZeroAge) ∧
    toNumericQ (.str "abc") = none ∧ toNumericQ (.num 0) = some 0 := by decide

/-- C7 (amended): every numeric feature cell is coerced to a number; an
unparseable or missing value becomes the default 0 and the row is kept —
but no report of the defaulted fields is produced (the output is the
feature matrix alone). -/
theorem numeric_coercion_to_zero (tc : Option TrainCats) (inp : PyInput) (c : String) (i : ℕ)
    (hc : c ∈ numFeatures) (hi : i < (toFrame inp).rows.length) :
    (toNumericQ (getCellRaw ((toFrame inp).rows.getD i []) c) = none →
      ((prepareFeatures tc inp).rows.getD i []).getD (featureCols.indexOf c) (.num 0) = .num 0) ∧
    (∀ q, toNumericQ (getCellRaw ((toFrame inp).rows.getD i []) c) = some q →
      colPresent (toFrame inp).cols c = true →
      ((prepareFeatures tc inp).rows.getD i []).getD (featureCols.indexOf c) (.num 0) = .num q) ∧
    (prepareFeatures tc inp).rows.length = (toFrame inp).rows.length := by
  have hcell : ((prepareFeatures tc inp).rows.getD i []).getD (featureCols.indexOf c) (.num 0) =
      featCellFor tc (toFrame inp).cols ((toFrame inp).rows.getD i []) c := by
    show (((toFrame inp).rows.map
      (fun r => featureCols.map (featCellFor tc (toFrame inp).cols r))).getD i []).getD
      (featureCols.indexOf c) (.num 0) = _
    rw [getD_map_lt _ _ _ _ [] hi]
    exact getD_map_indexOf _ _ _ _ (mem_featureCols_of_num hc)
  rw [hcell]
  unfold featCellFor
  rw [if_neg (cat_num_disjoint c hc)]
  unfold numCell
  refine ⟨fun hnone => ?_, fun q hq hpres => ?_, List.length_map _ _⟩
  · by_cases hp : colPresent (toFrame inp).cols c
    · rw [if_pos hp, hnone]
      rfl
    · rw [if_neg hp]
  · rw [if_pos hpres, hq]
    rfl

/-- Witness for the amended C7 at the record whose "age" is the unparseable
string "abc". -/
theorem numeric_coercion_to_zero_witness :
    ("age" ∈ numFeatures ∧ 0 < (toFrame (.single recBadAge)).rows.length) ∧
    ((toNumericQ (getCellRaw ((toFrame (.single recBadAge)).rows.getD 0 []) "age") = none →
      ((prepareFeatures none (.single recBadAge)).rows.getD 0 []).getD
        (featureCols.indexOf "age") (.num 0) = .num 0) ∧
    (∀ q, toNumericQ (getCellRaw ((toFrame (.single recBadAge)).rows.getD 0 []) "age") = some q →
      colPresent (toFrame (.single recBadAge)).cols "age" = true →
      ((prepareFeatures none (.single recBadAge)).rows.getD 0 []).getD
        (featureCols.indexOf "age") (.num 0) = .num q) ∧
    (prepareFeatures none (.single recBadAge)).rows.length =
      (toFrame (.single recBadAge)).rows.length) :=
  ⟨⟨by decide, by decide⟩,
    numeric_coercion_to_zero none (.single recBadAge) "age" 0 (by decide) (by decide)⟩

/-! ## C8 and C9: the scoring call -/

theorem scoreModel_loaded {env : ScoreEnv} {name : String} {m : List FeatValue → ℚ}
    (hm : env.models (name ++ "_model.pkl") = some m) (features : PyInput) (se : Bool) :
    scoreModel env name features se = scoreModelLoaded env m name features se := by
  unfold scoreModel
  rw [hm]

/-- C8: with explanation enabled, a missing SHAP explainer or a failing
SHAP computation never aborts the call: the predictions are still returned
(error field empty) with a shap_warning, respectively shap_error, field in
place of the attribution data. -/
theorem shap_failure_nonfatal (env : ScoreEnv) (name : String) (features : PyInput)
    (m : List FeatValue → ℚ) (hm : env.models (name ++ "_model.pkl") = some m) :
    (env.explainers (name ++ "_shap_explainer.pkl") = none →
      (scoreModel env name features true).predictions =
        some ((prepareFeatures env.trainingCategories features).rows.map m) ∧
      (scoreModel env name features true).shapWarning =
        some ("Could not load SHAP explainer: " ++ name ++ "_shap_explainer.pkl") ∧
      (scoreModel env name features true).error = none ∧
      (scoreModel env name features true).shapSummaryData = none) ∧
    (∀ ex e, env.explainers (name ++ "_shap_explainer.pkl") = some ex →
      ex (prepareFeatures env.trainingCategories features).rows = .error e →
      (scoreModel env name features true).predictions =
        some ((prepareFeatures env.trainingCategories features).rows.map m) ∧
      (scoreModel env name features true).shapError =
        some ("SHAP calculation failed: " ++ e) ∧
      (scoreModel env name features true).error = none) := by
  rw [scoreModel_loaded hm]
  constructor
  · intro hex
    unfold scoreModelLoaded
    rw [hex]
    exact ⟨rfl, rfl, rfl, rfl⟩
  · intro ex e hex hcall
    simp only [scoreModelLoaded, hex, hcall]
    exact ⟨rfl, rfl, rfl⟩

/-- Constant scoring model used by the witnesses. -/
def mW : List FeatValue → ℚ := fun _ => 1/2

/-- Concrete environment: the churn model loads, no explainer is available. -/
def envW : ScoreEnv :=
  { models := fun n => if n = "churn_model.pkl" then some mW else none
    explainers := fun _ => none
    trainingCategories := none }

/-- Witness for C8: scoring through envW with explanation enabled yields
predictions together with a shap_warning. -/
theorem shap_failure_nonfatal_witness :
    envW.models ("churn" ++ "_model.pkl") = some mW ∧
    ((envW.explainers ("churn" ++ "_shap_explainer.pkl") = none →
      (scoreModel envW "churn" (.single recBadAge) true).predictions =
        some ((prepareFeatures envW.trainingCategories (.single recBadAge)).rows.map mW) ∧
      (scoreModel envW "churn" (.single recBadAge) true).shapWarning =
        some ("Could not load SHAP explainer: " ++ "churn" ++ "_shap_explainer.pkl") ∧
      (scoreModel envW "churn" (.single recBadAge) true).error = none ∧
      (scoreModel envW "churn" (.single recBadAge) true).shapSummaryData = none) ∧
    (∀ ex e, envW.explainers ("churn" ++ "_shap_explainer.pkl") = some ex →
      ex (prepareFeatures envW.trainingCategories (.single recBadAge)).rows = .error e →
      (scoreModel envW "churn" (.single recBadAge) true).predictions =
        some ((prepareFeatures envW.trainingCategories (.single recBadAge)).rows.map mW) ∧
      (scoreModel envW "churn" (.single recBadAge) true).shapError =
        some ("SHAP calculation failed: " ++ e) ∧
      (scoreModel envW "churn" (.single recBadAge) true).error = none)) :=
  ⟨rfl, shap_failure_nonfatal envW "churn" (.single recBadAge) mW rfl⟩

/-- C9: an empty record list flows through the whole pipeline without
failure: the normalizer returns a zero-row matrix whose columns are exactly
the feature order, and the scorer returns an empty prediction list with no
error. -/
theorem empty_records_ok (env : ScoreEnv) (name : String) (m : List FeatValue → ℚ)
    (se : Bool) (hm : env.models (name ++ "_model.pkl") = some m) :
    (prepareFeatures env.trainingCategories (.list [])).rows = [] ∧
    (prepareFeatures env.trainingCategories (.list [])).cols = catFeatures ++ numFeatures ∧
    (scoreModel env name (.list []) se).predictions = some [] ∧
    (scoreModel env name (.list []) se).numSamples = some 0 ∧
    (scoreModel env name (.list []) se).error = none := by
  rw [scoreModel_loaded hm]
  refine ⟨rfl, rfl, ?_, ?_, ?_⟩ <;>
  · unfold scoreModelLoaded
    cases se
    · exact rfl
    · show _ = _
      cases hex : env.explainers (name ++ "_shap_explainer.pkl") with
      | none => simp only [hex]; rfl
      | some ex =>
          simp only [hex]
          cases hcall : ex (prepareFeatures env.trainingCategories (.list [])).rows with
          | error e => simp only [hcall]; rfl
          | ok sv => simp only [hcall]; rfl

/-- Witness for C9: the concrete environment envW scores an empty record
list to an empty prediction list. -/
theorem empty_records_ok_witness :
    envW.models ("churn" ++ "_model.pkl") = some mW ∧
    ((prepareFeatures envW.trainingCategories (.list [])).rows = [] ∧
    (prepareFeatures envW.trainingCategories (.list [])).cols = catFeatures ++ numFeatures ∧
    (scoreModel envW "churn" (.list []) true).predictions = some [] ∧
    (scoreModel envW "churn" (.list []) true).numSamples = some 0 ∧
    (scoreModel envW "churn" (.list []) true).error = none) :=
  ⟨rfl, empty_records_ok envW "churn" mW true rfl⟩

/-! ## C5

The specification asserts the factor report is sorted by importance rank
ascending and then probability delta descending.  The aggregator's summary
(lines 252-257) is indeed sorted that way, but the selector re-sorts the
filtered rows by probability contribution alone (line 417), which can put
a rank-2 group ahead of a rank-1 group. -/

/-- Order asserted by the specification for the factor report: importance
rank ascending, probability delta descending within equal ranks. -/
def SortedByRankThenDelta (l : List SummaryRow) : Prop := l.Pairwise rankContribRel

instance : IsTotal SummaryRow contribDescRel :=
  ⟨fun a b => le_total b.probabilityContribution a.probabilityContribution⟩

instance : IsTrans SummaryRow contribDescRel :=
  ⟨fun _ _ _ hab hbc => le_trans hbc hab⟩

instance : IsTotal SummaryRow rankContribRel := ⟨fun a b => by
  unfold rankContribRel
  rcases lt_trichotomy a.importanceRank b.importanceRank with h | h | h
  · exact Or.inl (Or.inl h)
  · rcases le_total b.probabilityContribution a.probabilityContribution with hc | hc
    · exact Or.inl (Or.inr ⟨h, hc⟩)
    · exact Or.inr (Or.inr ⟨h.symm, hc⟩)
  · exact Or.inr (Or.inl h)⟩

instance : IsTrans SummaryRow rankContribRel := ⟨fun a b c hab hbc => by
  unfold rankContribRel at hab hbc ⊢
  rcases hab with h1 | ⟨h1, h1c⟩ <;> rcases hbc with h2 | ⟨h2, h2c⟩
  · exact Or.inl (h1.trans h2)
  · exact Or.inl (h2 ▸ h1)
  · exact Or.inl (h1 ▸ h2)
  · exact Or.inr ⟨h1.trans h2, h2c.trans h1c⟩⟩

/-- A rank-1 group with a small probability contribution. -/
def rowA : SummaryRow :=
  { feature := "tenure_months", featureGroup := .ofValue (.num 1), featureEffect := "increases",
    probabilityContribution := 5, importanceRank := 1, shapValue := 3 }

/-- A rank-2 group with a larger probability contribution. -/
def rowB : SummaryRow :=
  { feature := "age", featureGroup := .ofValue (.num 2), featureEffect := "increases",
    probabilityContribution := 10, importanceRank := 2, shapValue := 1 }

/-- C5 counterexample: on a summary holding a rank-1 group with
contribution 5 and a rank-2 group with contribution 10, the selector's
report lists the rank-2 group first, so the report is not sorted by
importance rank ascending. -/
theorem report_not_rank_sorted : ¬ SortedByRankThenDelta (reportRows "positive" [rowA, rowB]) := by
  have hfilter : filterByDirection "positive" [rowA, rowB] = [rowA, rowB] := by
    unfold filterByDirection
    rw [if_pos (by decide)]
    rfl
  have hsort : reportRows "positive" [rowA, rowB] = [rowB, rowA] := by
    unfold reportRows
    rw [hfilter]
    show List.insertionSort contribDescRel [rowA, rowB] = [rowB, rowA]
    simp only [List.insertionSort, List.orderedInsert]
    rw [if_neg ?hc]
    case hc =>
      show ¬ contribDescRel rowA rowB
      unfold contribDescRel
      show ¬ ((10 : ℝ) ≤ 5)
      norm_num
  rw [SortedByRankThenDelta, hsort]
  intro h
  rcases List.pairwise_cons.mp h with ⟨h1, _⟩
  have h2 := h1 rowA (List.mem_cons_self _ _)
  unfold rankContribRel at h2
  rcases h2 with h3 | ⟨h3, _⟩
  · exact absurd h3 (by decide)
  · exact absurd h3 (by decide)

/-- C5 (amended): the aggregator's summary is sorted by importance rank
ascending then probability contribution descending, but the selector
re-sorts the filtered groups by probability contribution descending alone,
so the factor report is ordered only by probability contribution. -/
theorem summary_and_report_orders :
    (∀ shap X b, SortedByRankThenDelta (createShapSummary shap X b)) ∧
    (∀ dir rows, (reportRows dir rows).Pairwise contribDescRel) := by
  constructor
  · intro shap X b
    unfold SortedByRankThenDelta createShapSummary
    by_cases hc : 0 < (summaryRowsUnsorted shap X b).length
    · rw [if_pos hc]
      exact List.sorted_insertionSort rankContribRel _
    · rw [if_neg hc]
      have : (summaryRowsUnsorted shap X b).length = 0 := by omega
      rw [List.eq_nil_of_length_eq_zero this]
      exact List.Pairwise.nil
  · intro dir rows
    exact List.sorted_insertionSort contribDescRel _

/-! ## C4: importance ranks -/

theorem featureCols_nodup : featureCols.Nodup := by decide

theorem featuresIn_nodup (X : FeatFrame) : (featuresIn X).Nodup :=
  featureCols_nodup.filter _

instance : IsTotal (String × ℚ) impDescRel := ⟨fun a b => le_total b.2 a.2⟩

instance : IsTrans (String × ℚ) impDescRel := ⟨fun _ _ _ hab hbc => le_trans hbc hab⟩

instance : IsTotal (String × ℚ) impAscRel := ⟨fun a b => le_total a.2 b.2⟩

instance : IsTrans (String × ℚ) impAscRel := ⟨fun _ _ _ hab hbc => le_trans hab hbc⟩

/-- Feature names in descending-importance order. -/
def impKeys (shap : List (List ℚ)) (X : FeatFrame) : List String :=
  (sortedImportance shap X).map Prod.fst

theorem rankOf_eq (shap : List (List ℚ)) (X : FeatFrame) (f : String) :
    rankOf shap X f = (impKeys shap X).indexOf f + 1 := rfl

theorem sortedImportance_perm (shap : List (List ℚ)) (X : FeatFrame) :
    (sortedImportance shap X).Perm (importancePairs shap X) :=
  (List.reverse_perm _).trans (List.perm_insertionSort _ _)

theorem map_fst_importancePairs (shap : List (List ℚ)) (X : FeatFrame) :
    (importancePairs shap X).map Prod.fst = featuresIn X := by
  unfold importancePairs
  rw [List.map_map]
  exact (List.map_congr_left (fun f _ => rfl)).trans (List.map_id _)

theorem impKeys_perm (shap : List (List ℚ)) (X : FeatFrame) :
    (impKeys shap X).Perm (featuresIn X) := by
  have h1 := (sortedImportance_perm shap X).map Prod.fst
  rw [map_fst_importancePairs] at h1
  exact h1

theorem impKeys_nodup (shap : List (List ℚ)) (X : FeatFrame) : (impKeys shap X).Nodup :=
  ((impKeys_perm shap X).nodup_iff).mpr (featuresIn_nodup X)

theorem sortedImportance_pairwise (shap : List (List ℚ)) (X : FeatFrame) :
    (sortedImportance shap X).Pairwise impDescRel := by
  unfold sortedImportance
  rw [List.pairwise_reverse]
  exact List.sorted_insertionSort impAscRel _

theorem sortedImportance_snd {shap : List (List ℚ)} {X : FeatFrame} {p : String × ℚ}
    (hp : p ∈ sortedImportance shap X) : p.2 = meanAbsShap shap X p.1 := by
  have hmem : p ∈ importancePairs shap X := (sortedImportance_perm shap X).mem_iff.mp hp
  obtain ⟨f, _, rfl⟩ := List.mem_map.mp hmem
  rfl

theorem map_indexOf_self {α : Type} [DecidableEq α] {l : List α} (h : l.Nodup) :
    l.map (fun x => l.indexOf x) = List.range l.length := by
  apply List.ext_getElem
  · simp
  · intro i h1 h2
    simp only [List.getElem_map, List.getElem_range]
    exact List.indexOf_getElem h i (by simpa using h1)

theorem indexOf_lt_of_pair_sublist {α : Type} [DecidableEq α] {a b : α} {l : List α}
    (h : [a, b].Sublist l) (hnd : l.Nodup) : l.indexOf a < l.indexOf b := by
  induction l with
  | nil => simp at h
  | cons x t ih =>
    cases h with
    | cons _ h2 =>
        have ha : a ∈ t := h2.subset (by simp)
        have hb : b ∈ t := h2.subset (by simp)
        have hxa : x ≠ a := fun he => (List.nodup_cons.mp hnd).1 (he ▸ ha)
        have hxb : x ≠ b := fun he => (List.nodup_cons.mp hnd).1 (he ▸ hb)
        rw [List.indexOf_cons_ne _ hxa, List.indexOf_cons_ne _ hxb]
        exact Nat.succ_lt_succ (ih h2 (List.nodup_cons.mp hnd).2)
    | cons₂ _ h2 =>
        have hb : b ∈ t := h2.subset (by simp)
        have hne : a ≠ b := fun he => (List.nodup_cons.mp hnd).1 (he ▸ hb)
        rw [List.indexOf_cons_self, List.indexOf_cons_ne _ hne]
        exact Nat.succ_pos _

theorem fst_sortedImportance_getElem (shap : List (List ℚ)) (X : FeatFrame) {i : ℕ}
    (h1 : i < (sortedImportance shap X).length) (h2 : i < (impKeys shap X).length) :
    ((sortedImportance shap X)[i]).1 = (impKeys shap X)[i] := by
  simp [impKeys]

theorem imp_le_of_indexOf_lt (shap : List (List ℚ)) (X : FeatFrame) {f g : String}
    (hf : f ∈ impKeys shap X) (hg : g ∈ impKeys shap X)
    (h : (impKeys shap X).indexOf g < (impKeys shap X).indexOf f) :
    meanAbsShap shap X f ≤ meanAbsShap shap X g := by
  have hfl : (impKeys shap X).indexOf f < (impKeys shap X).length :=
    List.indexOf_lt_length.mpr hf
  have hgl : (impKeys shap X).indexOf g < (impKeys shap X).length :=
    List.indexOf_lt_length.mpr hg
  have hlen : (impKeys shap X).length = (sortedImportance shap X).length :=
    List.length_map _ _
  have hfl2 : (impKeys shap X).indexOf f < (sortedImportance shap X).length := by omega
  have hgl2 : (impKeys shap X).indexOf g < (sortedImportance shap X).length := by omega
  have hrel := List.pairwise_iff_getElem.mp (sortedImportance_pairwise shap X)
    ((impKeys shap X).indexOf g) ((impKeys shap X).indexOf f) hgl2 hfl2 h
  have ef : ((sortedImportance shap X)[(impKeys shap X).indexOf f]).1 = f :=
    (fst_sortedImportance_getElem shap X hfl2 hfl).trans (List.getElem_indexOf hfl)
  have eg : ((sortedImportance shap X)[(impKeys shap X).indexOf g]).1 = g :=
    (fst_sortedImportance_getElem shap X hgl2 hgl).trans (List.getElem_indexOf hgl)
  have sf : ((sortedImportance shap X)[(impKeys shap X).indexOf f]).2 =
      meanAbsShap shap X f := by
    rw [sortedImportance_snd (List.getElem_mem _), ef]
  have sg : ((sortedImportance shap X)[(impKeys shap X).indexOf g]).2 =
      meanAbsShap shap X g := by
    rw [sortedImportance_snd (List.getElem_mem _), eg]
  unfold impDescRel at hrel
  rw [sf, sg] at hrel
  exact hrel

/-- Ties of the descending importance table come out in reverse feature
order: if f precedes g in the feature order and their importances are
equal, g receives the smaller rank. -/
theorem rank_reversed_of_tie (shap : List (List ℚ)) (X : FeatFrame) {f g : String}
    (hsub : [f, g].Sublist (featuresIn X))
    (himp : meanAbsShap shap X f = meanAbsShap shap X g) :
    rankOf shap X g < rankOf shap X f := by
  have hpairs : [(f, meanAbsShap shap X f), (g, meanAbsShap shap X g)].Sublist
      (importancePairs shap X) := by
    have := hsub.map (fun x => (x, meanAbsShap shap X x))
    simpa [importancePairs] using this
  have hrel : impAscRel (f, meanAbsShap shap X f) (g, meanAbsShap shap X g) :=
    le_of_eq himp
  have hs : [(f, meanAbsShap shap X f), (g, meanAbsShap shap X g)].Sublist
      (List.insertionSort impAscRel (importancePairs shap X)) :=
    List.pair_sublist_insertionSort hrel hpairs
  have hrev : [(g, meanAbsShap shap X g), (f, meanAbsShap shap X f)].Sublist
      (sortedImportance shap X) := by
    have := hs.reverse
    simpa [sortedImportance] using this
  have hkeys : [g, f].Sublist (impKeys shap X) := by
    have := hrev.map Prod.fst
    simpa [impKeys] using this
  have := indexOf_lt_of_pair_sublist hkeys (impKeys_nodup shap X)
  rw [rankOf_eq, rankOf_eq]
  omega

/-- C4 (amended): feature importance is the mean absolute SHAP value over
the rows of the batch; the importance ranks over the features of the call
form a permutation of 1..F, strictly descending in importance; and every
value-group row of a feature carries that feature's rank and importance.
The order of equally-important features is NOT the stable feature order:
sort_values(ascending=False) reverses its ascending argsort, so under the
stable base sort modelled here ties come out in reverse feature order. -/
theorem importance_rank_dense (shap : List (List ℚ)) (X : FeatFrame) :
    ((featuresIn X).map (fun f => rankOf shap X f)).Perm
      (List.range' 1 (featuresIn X).length) ∧
    (∀ f ∈ featuresIn X, ∀ g ∈ featuresIn X,
      meanAbsShap shap X g < meanAbsShap shap X f → rankOf shap X f < rankOf shap X g) ∧
    (∀ f g, [f, g].Sublist (featuresIn X) →
      meanAbsShap shap X f = meanAbsShap shap X g → rankOf shap X g < rankOf shap X f) ∧
    (∀ b f, (groupAvgRows shap X b f).Forall (fun gr =>
      gr.importanceRank = rankOf shap X f ∧ gr.featureImportance = meanAbsShap shap X f)) ∧
    (∀ b, (createShapSummary shap X b).Forall
      (fun r => r.importanceRank = rankOf shap X r.feature)) := by
  have hperm := impKeys_perm shap X
  refine ⟨?_, ?_, ?_, ?_, ?_⟩
  · have h1 : ((featuresIn X).map (fun f => rankOf shap X f)).Perm
        ((impKeys shap X).map (fun f => rankOf shap X f)) := (hperm.symm).map _
    have h2 : (impKeys shap X).map (fun f => rankOf shap X f) =
        List.range' 1 (impKeys shap X).length := by
      have h3 : (impKeys shap X).map (fun f => rankOf shap X f) =
          ((impKeys shap X).map (fun f => (impKeys shap X).indexOf f)).map (fun i => i + 1) := by
        rw [List.map_map]
        rfl
      rw [h3, map_indexOf_self (impKeys_nodup shap X), List.range'_eq_map_range]
      exact List.map_congr_left (fun i _ => Nat.add_comm i 1)
    rw [h2] at h1
    rw [hperm.length_eq] at h1
    exact h1
  · intro f hf g hg himp
    by_contra hnot
    push_neg at hnot
    rw [rankOf_eq, rankOf_eq] at hnot
    have hidx : (impKeys shap X).indexOf g ≤ (impKeys shap X).indexOf f := by omega
    have hfk : f ∈ impKeys shap X := hperm.mem_iff.mpr hf
    have hgk : g ∈ impKeys shap X := hperm.mem_iff.mpr hg
    rcases Nat.eq_or_lt_of_le hidx with heq | hlt
    · have : g = f := (List.indexOf_inj hgk hfk).mp heq
      rw [this] at himp
      exact lt_irrefl _ himp
    · exact absurd (imp_le_of_indexOf_lt shap X hfk hgk hlt) (not_le.mpr himp)
  · exact fun f g hsub himp => rank_reversed_of_tie shap X hsub himp
  · intro b f
    rw [List.forall_iff_forall_mem]
    intro gr hgr
    unfold groupAvgRows at hgr
    rw [List.mem_map] at hgr
    obtain ⟨k, _, rfl⟩ := hgr
    exact ⟨rfl, rfl⟩
  · intro b
    rw [List.forall_iff_forall_mem]
    intro r hr
    obtain ⟨f, _, g, hg, rfl⟩ := mem_createShapSummary hr
    unfold groupAvgRows at hg
    rw [List.mem_map] at hg
    obtain ⟨k, _, rfl⟩ := hg
    rfl

/-- One-row input of all defaults for the C4 counterexample. -/
def X0 : FeatFrame := prepareFeatures none (.single [])

/-- A one-row all-zero SHAP matrix: every feature has importance exactly 0. -/
def shap0 : List (List ℚ) := [List.replicate featureCols.length 0]

theorem shapAt_shap0 (f : String) (i : ℕ) : shapAt shap0 X0 f i = 0 := by
  unfold shapAt shap0
  cases i with
  | zero =>
      show (List.replicate featureCols.length (0 : ℚ)).getD (featIdx X0 f) 0 = 0
      rw [List.getD_eq_getElem?_getD, List.getElem?_replicate]
      split <;> rfl
  | succ n => rfl

theorem meanAbsShap_shap0 (f : String) : meanAbsShap shap0 X0 f = 0 := by
  unfold meanAbsShap
  have h : ∀ i ∈ List.range (nRows X0), |shapAt shap0 X0 f i| = (fun _ : ℕ => (0 : ℚ)) i := by
    intro i _
    simp [shapAt_shap0 f i]
  rw [List.map_congr_left h]
  simp

/-- C4 counterexample: on a batch where every feature has the same
importance (all SHAP values zero), customer_segment precedes customer_type
in the stable feature order, yet it receives the larger rank — the tie
between equally-important features is not broken by the stable feature
order. -/
theorem rank_ties_not_stable_order :
    featuresIn X0 = featureCols ∧
    featureCols.indexOf "customer_segment" < featureCols.indexOf "customer_type" ∧
    meanAbsShap shap0 X0 "customer_segment" = meanAbsShap shap0 X0 "customer_type" ∧
    rankOf shap0 X0 "customer_type" < rankOf shap0 X0 "customer_segment" := by
  have hfeat : featuresIn X0 = featureCols := by decide
  refine ⟨hfeat, by decide, ?_, ?_⟩
  · rw [meanAbsShap_shap0, meanAbsShap_shap0]
  · apply rank_reversed_of_tie
    · rw [hfeat]
      decide
    · rw [meanAbsShap_shap0, meanAbsShap_shap0]

end EnergyAgent
